import Mathlib

/-!
Verification development for the Telegram SVG-to-TGS converter bot
(src/main.py).  Each section shallowly embeds one component of the
source:

- the user registry backed by SQLite (class DatabaseManager),
- the document validator (SVGToTGSConverter.validate_svg_file),
- the conversion pipeline and its fallback synthesis
  (SVGToTGSConverter.convert_svg_to_tgs, _create_fallback_tgs),
- the broadcast dispatcher (TelegramBot.broadcast_command),
- the per-batch status message timeline (TelegramBot._process_user_batch),
- the per-user batch accumulator with its debounce timer
  (TelegramBot.handle_document, _process_batch_after_delay,
  _process_user_batch), embedded as a small-step transition system over
  the suspension points of the asyncio event loop.

All definitions are executable; machine arithmetic does not occur in the
modelled fragments (sizes are unbounded Python ints, time is modelled by
rationals).
-/

/- ===================== Association lists =====================
The Python dict self.user_batches and the SQLite users table keyed by
user_id are both modelled as association lists over natural-number keys
with replace-on-insert semantics. -/

/-- Lookup of a key in an association list (dict access / SELECT by primary key). -/
def alookup {α : Type} (u : ℕ) : List (ℕ × α) → Option α
  | [] => none
  | p :: ps => if p.1 = u then some p.2 else alookup u ps

/-- Removal of a key from an association list (del / row replacement). -/
def aerase {α : Type} (u : ℕ) : List (ℕ × α) → List (ℕ × α)
  | [] => []
  | p :: ps => if p.1 = u then aerase u ps else p :: aerase u ps

/-- Insert-or-replace of a key (dict assignment / INSERT OR REPLACE). -/
def ainsert {α : Type} (u : ℕ) (a : α) (m : List (ℕ × α)) : List (ℕ × α) :=
  (u, a) :: aerase u m

/- ===================== User registry (DatabaseManager) ===================== -/

/-- One row of the users table (main.py lines 79-89).  Timestamps are not
modelled; is_banned has SQL DEFAULT 0, i.e. false. -/
structure UserRow where
  username : String
  first_name : String
  last_name : String
  is_banned : Bool
deriving DecidableEq

/-- DatabaseManager.add_user (main.py lines 101-110).  The statement is
INSERT OR REPLACE INTO users (user_id, username, first_name, last_name,
last_activity) VALUES (...).  SQLite INSERT OR REPLACE deletes the
conflicting row and inserts a fresh one in which every column absent from
the column list takes its declared DEFAULT; in particular is_banned
becomes 0 again. -/
def add_user (db : List (ℕ × UserRow)) (user_id : ℕ)
    (username first_name last_name : String) : List (ℕ × UserRow) :=
  ainsert user_id ⟨username, first_name, last_name, false⟩ db

/-- DatabaseManager.ban_user (main.py lines 112-119): UPDATE users SET
is_banned = 1 WHERE user_id = ?; returns whether a row was updated. -/
def ban_user (db : List (ℕ × UserRow)) (user_id : ℕ) :
    List (ℕ × UserRow) × Bool :=
  match alookup user_id db with
  | some r => (ainsert user_id { r with is_banned := true } db, true)
  | none => (db, false)

/-- DatabaseManager.is_banned (main.py lines 130-137): SELECT is_banned FROM
users WHERE user_id = ?; a missing row reads as not banned. -/
def is_banned (db : List (ℕ × UserRow)) (user_id : ℕ) : Bool :=
  match alookup user_id db with
  | some r => r.is_banned
  | none => false

/- ===================== Document validator ===================== -/

/-- MAX_FILE_SIZE = 5 * 1024 * 1024 (main.py line 66). -/
def MAX_FILE_SIZE : ℕ := 5 * 1024 * 1024

/-- Whether the character list cs starts with the character list ds. -/
def startsWithL : List Char → List Char → Bool
  | [], _ => true
  | _ :: _, [] => false
  | c :: cs, d :: ds => (c == d) && startsWithL cs ds

/-- Whether needle occurs as a contiguous subsequence of the haystack
(the Python substring test x in s). -/
def containsSub (needle : List Char) : List Char → Bool
  | [] => needle.isEmpty
  | c :: cs => startsWithL needle (c :: cs) || containsSub needle cs

/-- The root marker looked for by the validator. -/
def svgMarker : List Char := "<svg".data

/-- SVGToTGSConverter.validate_svg_file (main.py lines 177-217).  The file
size is the os.path.getsize result; content is some s when the file could
be read as UTF-8 text and none when reading raised (the except branch at
line 211).  The source lowercases and strips the content and tests for
the substring <svg; stripping only removes surrounding whitespace and the
marker contains none, so it cannot change the outcome of the substring
test and is omitted.  Returns (is_valid, error_message). -/
def validate_svg_file (file_size : ℕ) (content : Option String) : Bool × String :=
  if MAX_FILE_SIZE < file_size then
    (false, "File too large")
  else
    match content with
    | none => (false, "Invalid SVG file")
    | some c =>
      if containsSub svgMarker (c.data.map Char.toLower) then
        (true, "")
      else
        (false, "Invalid SVG format - missing <svg> tag")

/- ===================== Fallback payload (_create_fallback_tgs) ===================== -/

/-- JSON values, enough to write down the lottie_data dictionary built by
_create_fallback_tgs (main.py lines 280-325).  Numbers are rationals;
the two float literals 0.2 and 0.7 of the source are represented exactly. -/
inductive JVal where
  | num (q : ℚ)
  | str (s : String)
  | arr (elems : List JVal)
  | obj (fields : List (String × JVal))

/-- Field access in a JSON object. -/
def JVal.getF : JVal → String → Option JVal
  | .obj fields, k => (fields.find? (fun p => p.1 == k)).map (fun p => p.2)
  | _, _ => none

/-- The rounded-rectangle shape of the fallback layer (main.py lines 306-312). -/
def rcShape : JVal := .obj
  [("ty", .str "rc"), ("d", .num 1),
   ("s", .obj [("a", .num 0), ("k", .arr [.num 400, .num 400])]),
   ("p", .obj [("a", .num 0), ("k", .arr [.num 0, .num 0])]),
   ("r", .obj [("a", .num 0), ("k", .num 10)])]

/-- The fill shape of the fallback layer (main.py lines 313-317). -/
def flShape : JVal := .obj
  [("ty", .str "fl"),
   ("c", .obj [("a", .num 0), ("k", .arr [.num 0.2, .num 0.7, .num 1, .num 1])]),
   ("o", .obj [("a", .num 0), ("k", .num 100)])]

/-- The ks transform of the fallback layer (main.py lines 297-303); every
entry is static (a = 0), so position and scale carry no motion. -/
def svgLayerKs : JVal := .obj
  [("o", .obj [("a", .num 0), ("k", .num 100)]),
   ("r", .obj [("a", .num 0), ("k", .num 0)]),
   ("p", .obj [("a", .num 0), ("k", .arr [.num 256, .num 256, .num 0])]),
   ("a", .obj [("a", .num 0), ("k", .arr [.num 0, .num 0, .num 0])]),
   ("s", .obj [("a", .num 0), ("k", .arr [.num 100, .num 100, .num 100])])]

/-- The single layer of the fallback animation (main.py lines 291-323). -/
def svgLayer : JVal := .obj
  [("ddd", .num 0), ("ind", .num 1), ("ty", .num 4), ("nm", .str "SVG Layer"),
   ("sr", .num 1), ("ks", svgLayerKs), ("ao", .num 0),
   ("shapes", .arr [rcShape, flShape]),
   ("ip", .num 0), ("op", .num 30), ("st", .num 0), ("bm", .num 0)]

/-- The lottie_data dictionary of _create_fallback_tgs (main.py lines 280-325). -/
def lottie_data : JVal := .obj
  [("v", .str "5.5.2"), ("fr", .num 30), ("ip", .num 0), ("op", .num 30),
   ("w", .num 512), ("h", .num 512), ("nm", .str "SVG Animation"),
   ("ddd", .num 0), ("assets", .arr []), ("layers", .arr [svgLayer])]

/-- The JSON document produced by _create_fallback_tgs for one input file
whose content was read successfully (main.py lines 274-328).  The source
reads svg_content from the input file but uses it in no field; the result
is always the fixed lottie_data document. -/
def create_fallback_tgs (svg_content : String) : JVal := lottie_data

/-- The bytes written by _create_fallback_tgs (main.py lines 328-332):
gzip.compress(json.dumps(lottie_data, separators=...).encode(...)).  The
JSON serializer and the gzip compressor are Python standard-library
collaborators outside the repository, so they are passed in as functions
(dumps covers json.dumps plus UTF-8 encoding, compress covers
gzip.compress). -/
def fallback_tgs_bytes (dumps : JVal → String) (compress : String → List ℕ)
    (svg_content : String) : List ℕ :=
  compress (dumps (create_fallback_tgs svg_content))

/- ===================== Conversion pipeline control flow ===================== -/

/-- Log events emitted along the conversion pipeline.  The constructor
oversizeWarn is declared so that the advisory 64 KiB ceiling property can
be stated; the source code contains no such check, so no code path below
emits it. -/
inductive ConvLog where
  | lottieSuccessInfo (size : ℕ)
  | lottieFailedWarn
  | lottieEmptyError
  | fallbackCreatedInfo (size : ℕ)
  | fallbackFailedError
  | oversizeWarn (size : ℕ)
deriving DecidableEq

/-- Result of convert_svg_to_tgs: the (success, error_message) pair the
source returns, together with the log messages it emitted. -/
structure ConvResult where
  success : Bool
  errMsg : String
  logs : List ConvLog
deriving DecidableEq

/-- Control flow of _create_fallback_tgs (main.py lines 271-343): svgRead
is some content when reading the input succeeded and none when it raised;
writtenSize is the size of the file the gzip write produced.  Success
requires the output to exist and be non-empty (line 334). -/
def run_fallback_tgs (svgRead : Option String) (writtenSize : ℕ) : ConvResult :=
  match svgRead with
  | none => ⟨false, "Fallback conversion error", [.fallbackFailedError]⟩
  | some _ =>
    if 0 < writtenSize then
      ⟨true, "", [.fallbackCreatedInfo writtenSize]⟩
    else
      ⟨false, "Failed to create fallback TGS file", []⟩

/-- SVGToTGSConverter.convert_svg_to_tgs (main.py lines 219-269).
lottieAvailable mirrors LOTTIE_AVAILABLE; primaryOutSize is some n when
the lottie import/export completed without raising and left an output
file of n bytes (n = 0 covering the missing-or-empty check of line 253),
and none when the lottie path raised (line 261).  On primary success the
source logs an info line with the output size and returns success with no
further size checks of any kind. -/
def convert_svg_to_tgs (lottieAvailable : Bool) (primaryOutSize : Option ℕ)
    (svgRead : Option String) (fallbackWrittenSize : ℕ) : ConvResult :=
  if lottieAvailable then
    match primaryOutSize with
    | some n =>
      if n = 0 then
        let r := run_fallback_tgs svgRead fallbackWrittenSize
        { r with logs := .lottieEmptyError :: r.logs }
      else
        ⟨true, "", [.lottieSuccessInfo n]⟩
    | none =>
      let r := run_fallback_tgs svgRead fallbackWrittenSize
      { r with logs := .lottieFailedWarn :: r.logs }
  else
    run_fallback_tgs svgRead fallbackWrittenSize

/- ===================== Broadcast dispatcher ===================== -/

/-- Outbound platform calls made by broadcast_command: the initial status
reply, one send attempt per recipient (ok records whether it raised), and
edits of the status message. -/
inductive BEvent where
  | statusPost (text : String)
  | sendAttempt (user_id : ℕ) (ok : Bool)
  | statusEdit (text : String)
deriving DecidableEq

/-- Loop body of broadcast_command (main.py lines 474-480): try the send;
on success increment success_count, on any exception increment
failed_count; either way continue with the next recipient. -/
def broadcastStep (sendOk : ℕ → Bool) (acc : ℕ × ℕ × List BEvent) (user_id : ℕ) :
    ℕ × ℕ × List BEvent :=
  if sendOk user_id then
    (acc.1 + 1, acc.2.1, acc.2.2 ++ [.sendAttempt user_id true])
  else
    (acc.1, acc.2.1 + 1, acc.2.2 ++ [.sendAttempt user_id false])

/-- TelegramBot.broadcast_command dispatch loop (main.py lines 464-488)
over the recipient snapshot user_ids, with sendOk telling for each
recipient whether context.bot.send_message succeeds.  Returns
(success_count, failed_count, emitted platform events). -/
def broadcast_command (user_ids : List ℕ) (sendOk : ℕ → Bool) :
    ℕ × ℕ × List BEvent :=
  let r := user_ids.foldl (broadcastStep sendOk)
    (0, 0, [BEvent.statusPost ("Broadcasting to " ++ toString user_ids.length ++ " users...")])
  (r.1, r.2.1, r.2.2 ++
    [BEvent.statusEdit ("Broadcast Complete! Successfully sent: " ++ toString r.1 ++
      " Failed: " ++ toString r.2.1 ++ " Total users: " ++ toString user_ids.length)])

/-- Recognizer for status-message edits. -/
def isStatusEdit : BEvent → Bool
  | .statusEdit _ => true
  | _ => false

/-- The recipient of a send attempt, if the event is one. -/
def attemptUid : BEvent → Option ℕ
  | .sendAttempt user_id _ => some user_id
  | _ => none

/-- Number of status edits emitted strictly before the last event; since
the final tally is the last event, these are the running progress edits
of a dispatch. -/
def progressEdits (evs : List BEvent) : ℕ :=
  (evs.dropLast.filter isStatusEdit).length

/- ===================== Batch status message timeline ===================== -/

/-- States of the single per-batch status message.  The constructor
fileProgress is declared so that the per-file progress property can be
stated; _process_user_batch never emits it. -/
inductive StatusMsg where
  | waiting
  | fileProgress (current total : ℕ)
  | done
  | noneConverted
  | processingError
deriving DecidableEq

/-- Per-file outcome inside a flushed batch: whether validate_svg_file
accepted it and, if so, whether convert_svg_to_tgs succeeded. -/
structure FileOutcome where
  valid : Bool
  converted : Bool
deriving DecidableEq

/-- The sequence of states the status message of one batch passes through
on the exception-free path: the waiting announcement posted by
handle_document on the first file (main.py line 539), then the edits of
_process_user_batch (main.py lines 609-630): an edit to the done text
before sending, and a further edit to the no-files-converted text when
the converted list is empty.  An empty file list returns before any edit
(line 569). -/
def batchStatusTimeline (files : List FileOutcome) : List StatusMsg :=
  if files.isEmpty then []
  else
    [StatusMsg.waiting, StatusMsg.done] ++
      (if (files.filter (fun f => f.valid && f.converted)).isEmpty then
        [StatusMsg.noneConverted]
      else [])

/- ===================== Batch accumulator transition system ===================== -/

/-- The debounce delay: asyncio.sleep(2) in _process_batch_after_delay
(main.py line 552).  Time is modelled by rationals. -/
def debounceDelay : ℚ := 2

/-- One entry of self.user_batches (main.py lines 524-529): the files list
in arrival order (documents stand for their identifiers), the identity of
the currently scheduled timer task, and the instant that timer is due.
The progress message reference is modelled separately by
batchStatusTimeline. -/
structure UserBatch where
  files : List ℕ
  timerGen : ℕ
  deadline : ℚ
deriving DecidableEq

/-- One flush handed to the processing loop: the user it belongs to, the
captured files list, and whether the processing coroutine has finished. -/
structure Flush where
  user : ℕ
  files : List ℕ
  completed : Bool
deriving DecidableEq

/-- Global state of the accumulator: current time, the live per-user map
self.user_batches, a counter issuing timer identities, and the flushes
begun so far (most recent first). -/
structure Sys where
  now : ℚ
  batches : List (ℕ × UserBatch)
  nextGen : ℕ
  flushes : List Flush
deriving DecidableEq

/-- Atomic segments of the event loop, each running without interruption
between suspension points:

- arrive u d: the batch section of handle_document (main.py lines
  521-548) for one incoming document d of user u: append to the existing
  entry or create a fresh one, cancel the previously scheduled timer and
  schedule a new one due debounceDelay from now.
- fire u g: timer task g of user u resumes from its sleep and runs
  _process_user_batch up to the first await (main.py lines 550-570):
  possible only if that timer is still the current one (a cancelled
  asyncio task never resumes) and its delay has elapsed; it deletes the
  map entry and captures the files, beginning a flush.
- complete i: the processing coroutine of flush i finishes.
- tick d: time advances by d.  The event loop never advances past the
  due time of a live sleeping timer without resuming it, so a tick may
  not jump over any live deadline. -/
inductive Act where
  | arrive (u d : ℕ)
  | fire (u g : ℕ)
  | complete (i : ℕ)
  | tick (d : ℚ)
deriving DecidableEq

/-- Mark flush i completed. -/
def markAt : ℕ → List Flush → List Flush
  | _, [] => []
  | 0, f :: fs => { f with completed := true } :: fs
  | n + 1, f :: fs => f :: markAt n fs

/-- The batch section of handle_document (main.py lines 521-548) for one
document d of user u: create the entry if absent, append the document,
cancel the previous timer and schedule a fresh one due debounceDelay
from now (the new timerGen identity supersedes the old one, so the
cancelled timer can never fire). -/
def stepArrive (s : Sys) (u d : ℕ) : Option Sys :=
  match alookup u s.batches with
  | none => some { s with
      batches := ainsert u ⟨[d], s.nextGen, s.now + debounceDelay⟩ s.batches,
      nextGen := s.nextGen + 1 }
  | some b => some { s with
      batches := ainsert u ⟨b.files ++ [d], s.nextGen, s.now + debounceDelay⟩ s.batches,
      nextGen := s.nextGen + 1 }

/-- Timer g of user u resumes and runs _process_user_batch up to its
first await (main.py lines 550-570): only the currently scheduled timer
can resume, only once its delay has elapsed; the entry is deleted and
its files captured in this same atomic segment. -/
def stepFire (s : Sys) (u g : ℕ) : Option Sys :=
  match alookup u s.batches with
  | some b =>
    if b.timerGen = g ∧ b.deadline ≤ s.now then
      some { s with
        batches := aerase u s.batches,
        flushes := ⟨u, b.files, false⟩ :: s.flushes }
    else none
  | none => none

/-- The processing coroutine of flush i finishes. -/
def stepComplete (s : Sys) (i : ℕ) : Option Sys :=
  if i < s.flushes.length then some { s with flushes := markAt i s.flushes }
  else none

/-- Time advances by d; the event loop never advances past the due time
of a live sleeping timer without resuming it. -/
def stepTick (s : Sys) (d : ℚ) : Option Sys :=
  if 0 < d ∧ ∀ p ∈ s.batches, s.now + d ≤ p.2.deadline then
    some { s with now := s.now + d }
  else none

/-- One atomic step of the accumulator; none means the action is not
enabled in this state. -/
def accStep (s : Sys) : Act → Option Sys
  | .arrive u d => stepArrive s u d
  | .fire u g => stepFire s u g
  | .complete i => stepComplete s i
  | .tick d => stepTick s d

/-- Run a list of actions from a state; none when some action was not
enabled. -/
def accRun : List Act → Sys → Option Sys
  | [], s => some s
  | a :: acts, s =>
    match accStep s a with
    | none => none
    | some s' => accRun acts s'

/-- The initial state: no batches, no flushes. -/
def initSys : Sys := ⟨0, [], 0, []⟩

/-- The arrival of user u performed by one action, if any: the (time,
document) pair recorded at the instant the action runs. -/
def arrHead (u : ℕ) (s : Sys) : Act → List (ℚ × ℕ)
  | .arrive v d => if v = u then [(s.now, d)] else []
  | _ => []

/-- The files list the entry of user u currently holds, as a list of zero
or one captures. -/
def capturedFiles (u : ℕ) (s : Sys) : List (List ℕ) :=
  match alookup u s.batches with
  | some b => [b.files]
  | none => []

/-- The flush begin of user u performed by one action, if any: the files
captured from the live entry. -/
def fireHead (u : ℕ) (s : Sys) : Act → List (List ℕ)
  | .fire v _ => if v = u then capturedFiles u s else []
  | _ => []

/-- The (time, document) pairs of the successful arrivals of user u along
a run. -/
def uArr (u : ℕ) : List Act → Sys → List (ℚ × ℕ)
  | [], _ => []
  | a :: acts, s =>
    match accStep s a with
    | none => []
    | some s' => arrHead u s a ++ uArr u acts s'

/-- The captured files of the flushes begun for user u along a run. -/
def uFires (u : ℕ) : List Act → Sys → List (List ℕ)
  | [], _ => []
  | a :: acts, s =>
    match accStep s a with
    | none => []
    | some s' => fireHead u s a ++ uFires u acts s'

/-- Whether each time in the list is less than debounceDelay after the
previous one, starting from prev. -/
def gapsOk : ℚ → List ℚ → Bool
  | _, [] => true
  | prev, t :: ts => decide (t < prev + debounceDelay) && gapsOk t ts

/-- Whether consecutive arrivals are spaced less than debounceDelay apart. -/
def arrivalGapsOk : List (ℚ × ℕ) → Bool
  | [] => true
  | x :: xs => gapsOk x.1 (xs.map Prod.fst)

/-- Number of flushes of user u that have begun but not completed. -/
def activeFlushes (u : ℕ) (s : Sys) : ℕ :=
  (s.flushes.filter (fun f => f.user == u && !f.completed)).length

/-- The identifying data of a flush that is fixed at flush begin. -/
def flushData (f : Flush) : ℕ × List ℕ := (f.user, f.files)

/- ===================== Concrete scenarios ===================== -/

/-- A run in which user 7 sends a document, its batch flushes, a second
document arrives while that flush is still processing, and the second
batch flushes too. -/
def c1trace : List Act :=
  [.arrive 7 0, .tick 2, .fire 7 0, .arrive 7 1, .tick 2, .fire 7 1]

/-- Final state of c1trace. -/
def c1final : Sys := ⟨4, [], 2, [⟨7, [1], false⟩, ⟨7, [0], false⟩]⟩

/-- State with one collecting batch for user 7 whose timer is due. -/
def c1wState : Sys := ⟨2, [(7, ⟨[0], 0, 2⟩)], 1, []⟩

/-- State c1wState after its timer fires. -/
def c1wNext : Sys := ⟨2, [], 1, [⟨7, [0], false⟩]⟩

/-- A run in which user 5 sends two documents 1 time unit apart, the
debounce timer fires 2 units after the second, and time moves on. -/
def c2trace : List Act :=
  [.arrive 5 10, .tick 1, .arrive 5 11, .tick 2, .fire 5 1, .tick 1]

/-- Final state of c2trace. -/
def c2final : Sys := ⟨4, [], 2, [⟨5, [10, 11], false⟩]⟩

/-- Send outcome with exactly two failing recipients (3 and 7). -/
def c6ok (u : ℕ) : Bool := !(u == 3 || u == 7)

/-- Trivial serializer used to witness the fallback round-trip theorem. -/
def trivDumps : JVal → String := fun _ => ""

/-- Trivial compressor used to witness the fallback round-trip theorem. -/
def trivCompress : String → List ℕ := fun _ => []

/-- Trivial decompressor used to witness the fallback round-trip theorem. -/
def trivDecompress : List ℕ → String := fun _ => ""

/-- Trivial parser used to witness the fallback round-trip theorem. -/
def trivParse : String → Option JVal := fun _ => some lottie_data

/- ===================== Association list lemmas ===================== -/

theorem alookup_aerase_self {α : Type} (u : ℕ) (m : List (ℕ × α)) :
    alookup u (aerase u m) = none := by
  induction m with
  | nil => rfl
  | cons p ps ih =>
    by_cases h : p.1 = u
    · simp [aerase, h, ih]
    · simp [aerase, alookup, h, ih]

theorem alookup_aerase_ne {α : Type} {u v : ℕ} (h : u ≠ v) (m : List (ℕ × α)) :
    alookup u (aerase v m) = alookup u m := by
  have hvu : ¬ v = u := fun hc => h hc.symm
  induction m with
  | nil => rfl
  | cons p ps ih =>
    by_cases hp : p.1 = v
    · simp [aerase, alookup, hp, hvu, ih]
    · simp [aerase, alookup, hp, ih]

theorem alookup_ainsert_self {α : Type} (u : ℕ) (a : α) (m : List (ℕ × α)) :
    alookup u (ainsert u a m) = some a := by
  simp [ainsert, alookup]

theorem alookup_ainsert_ne {α : Type} {u v : ℕ} (h : u ≠ v) (a : α) (m : List (ℕ × α)) :
    alookup u (ainsert v a m) = alookup u m := by
  have : v ≠ u := fun hc => h hc.symm
  simp [ainsert, alookup, this, alookup_aerase_ne h]

theorem alookup_mem {α : Type} {u : ℕ} {a : α} :
    ∀ {m : List (ℕ × α)}, alookup u m = some a → (u, a) ∈ m := by
  intro m
  induction m with
  | nil => intro h; simp [alookup] at h
  | cons p ps ih =>
    intro h
    by_cases hp : p.1 = u
    · have h2 : p.2 = a := by simpa [alookup, hp] using h
      have hpa : p = (u, a) := by
        obtain ⟨p1, p2⟩ := p
        simp only [Prod.mk.injEq]
        exact ⟨hp, h2⟩
      rw [hpa]
      exact List.mem_cons_self _ _
    · simp [alookup, hp] at h
      exact List.mem_cons_of_mem _ (ih h)

/- ===================== C9: add_user erases ban state ===================== -/

/-- C9.  For every registry state and every user, an add_user call (as
performed unconditionally by the start command, main.py line 356)
replaces the stored row with one whose is_banned column has taken its
SQLite DEFAULT again, so afterwards is_banned reports false regardless of
the prior ban state of that user. -/
theorem add_user_resets_ban (db : List (ℕ × UserRow)) (user_id : ℕ)
    (username first_name last_name : String) :
    is_banned (add_user db user_id username first_name last_name) user_id = false := by
  simp [is_banned, add_user, alookup_ainsert_self]

/- ===================== C7: validator rejection conditions ===================== -/

/-- C7.  validate_svg_file fails exactly when the file size exceeds the
5 MiB cap, or the content could not be read as text, or the lowercased
text lacks the <svg root marker; in every other case it succeeds. -/
theorem validator_rejects_iff (file_size : ℕ) (content : Option String) :
    ((validate_svg_file file_size content).1 = false ↔
      (MAX_FILE_SIZE < file_size ∨ content = none ∨
        ∃ c, content = some c ∧ containsSub svgMarker (c.data.map Char.toLower) = false)) ∧
    MAX_FILE_SIZE = 5 * 1024 * 1024 := by
  refine ⟨?_, rfl⟩
  by_cases hs : MAX_FILE_SIZE < file_size
  · simp [validate_svg_file, hs]
  · cases content with
    | none => simp [validate_svg_file, hs]
    | some c =>
      by_cases hm : containsSub svgMarker (c.data.map Char.toLower) = true
      · simp [validate_svg_file, hs, hm]
      · simp only [Bool.not_eq_true] at hm
        simp [validate_svg_file, hs, hm]

/- ===================== C4: fallback output round-trip ===================== -/

/-- C4.  For every serializer and compressor obeying their standard
contracts on the fallback document (gzip decompression inverts
compression; the JSON parser inverts json.dumps), the bytes written by
the fallback tier decompress and parse back to the fixed lottie_data
document, which has w = 512, h = 512, fr = 30, in-point 0, out-point 30,
and a layers sequence holding exactly one shape layer (ty = 4) whose
shapes are a rounded rectangle and a fixed fill, with static (a = 0)
position and scale in its transform. -/
theorem fallback_roundtrip (dumps : JVal → String) (compress : String → List ℕ)
    (decompress : List ℕ → String) (parse : String → Option JVal) (svg_content : String)
    (hgz : decompress (compress (dumps lottie_data)) = dumps lottie_data)
    (hparse : parse (dumps lottie_data) = some lottie_data) :
    parse (decompress (fallback_tgs_bytes dumps compress svg_content)) = some lottie_data ∧
    lottie_data.getF "w" = some (.num 512) ∧
    lottie_data.getF "h" = some (.num 512) ∧
    lottie_data.getF "fr" = some (.num 30) ∧
    lottie_data.getF "ip" = some (.num 0) ∧
    lottie_data.getF "op" = some (.num 30) ∧
    lottie_data.getF "layers" = some (.arr [svgLayer]) ∧
    svgLayer.getF "ty" = some (.num 4) ∧
    svgLayer.getF "shapes" = some (.arr [rcShape, flShape]) ∧
    rcShape.getF "ty" = some (.str "rc") ∧
    rcShape.getF "r" = some (.obj [("a", .num 0), ("k", .num 10)]) ∧
    flShape.getF "ty" = some (.str "fl") ∧
    flShape.getF "c" = some (.obj [("a", .num 0), ("k", .arr [.num 0.2, .num 0.7, .num 1, .num 1])]) ∧
    svgLayerKs.getF "p" = some (.obj [("a", .num 0), ("k", .arr [.num 256, .num 256, .num 0])]) ∧
    svgLayerKs.getF "s" = some (.obj [("a", .num 0), ("k", .arr [.num 100, .num 100, .num 100])]) := by
  refine ⟨?_, ?_, ?_, ?_, ?_, ?_, ?_, ?_, ?_, ?_, ?_, ?_, ?_, ?_, ?_⟩
  · show parse (decompress (compress (dumps lottie_data))) = some lottie_data
    rw [hgz, hparse]
  all_goals rfl

/-- Witness for fallback_roundtrip at the trivial serializer, compressor
and parser, which satisfy both round-trip hypotheses definitionally. -/
theorem fallback_roundtrip_witness :
    trivParse (trivDecompress (fallback_tgs_bytes trivDumps trivCompress "x")) =
      some lottie_data :=
  (fallback_roundtrip trivDumps trivCompress trivDecompress trivParse "x" rfl rfl).1

/- ===================== C10: fallback noninterference ===================== -/

/-- C10.  The fallback tier reads the input document but lets it
contribute to no field of the produced payload: for every two input
contents the synthesized JSON document is identical, and for every fixed
serializer and compressor the written bytes are identical as well. -/
theorem fallback_noninterference (dumps : JVal → String) (compress : String → List ℕ)
    (content₁ content₂ : String) :
    create_fallback_tgs content₁ = create_fallback_tgs content₂ ∧
    fallback_tgs_bytes dumps compress content₁ = fallback_tgs_bytes dumps compress content₂ :=
  ⟨rfl, rfl⟩

/- ===================== C5: advisory size ceiling ===================== -/

/-- Counterexample to C5 as stated.  A conversion whose primary tier
produces a 70000-byte output (larger than the 65536-byte ceiling) is
treated as a success and its complete log output is the single
size-reporting info line: no warning about exceeding the payload ceiling
is produced anywhere in convert_svg_to_tgs. -/
theorem size_ceiling_cex :
    convert_svg_to_tgs true (some 70000) (some "a") 1 =
      { success := true, errMsg := "", logs := [ConvLog.lottieSuccessInfo 70000] } ∧
    65536 < 70000 := by
  exact ⟨rfl, by norm_num⟩

/-- C5 as amended.  The pipeline performs no payload-ceiling check at
all: no code path of convert_svg_to_tgs emits a ceiling warning, and a
primary output larger than 64 KiB is still treated as a successful
conversion and delivered. -/
theorem no_size_ceiling_warning (lottieAvailable : Bool) (primaryOutSize : Option ℕ)
    (svgRead : Option String) (fallbackWrittenSize : ℕ) (sz n : ℕ) :
    ConvLog.oversizeWarn sz ∉
      (convert_svg_to_tgs lottieAvailable primaryOutSize svgRead fallbackWrittenSize).logs ∧
    (primaryOutSize = some n → 65536 < n → lottieAvailable = true →
      (convert_svg_to_tgs lottieAvailable primaryOutSize svgRead fallbackWrittenSize).success
        = true) := by
  constructor
  · have hfb : ∀ (sr : Option String) (fb : ℕ),
        ConvLog.oversizeWarn sz ∉ (run_fallback_tgs sr fb).logs := by
      intro sr fb
      cases sr with
      | none => simp [run_fallback_tgs]
      | some c =>
        simp only [run_fallback_tgs]
        split <;> simp
    cases lottieAvailable with
    | false => exact hfb _ _
    | true =>
      cases primaryOutSize with
      | none =>
        have := hfb svgRead fallbackWrittenSize
        simp only [convert_svg_to_tgs]
        simp_all
      | some m =>
        by_cases hz : m = 0
        · have := hfb svgRead fallbackWrittenSize
          simp only [convert_svg_to_tgs, hz, if_pos]
          simp_all
        · simp [convert_svg_to_tgs, hz]
  · intro hp hn hl
    subst hp
    subst hl
    have hnz : ¬ n = 0 := by omega
    simp [convert_svg_to_tgs, hnz]

/-- Witness for no_size_ceiling_warning at an oversize primary output. -/
theorem no_size_ceiling_warning_witness :
    ConvLog.oversizeWarn 70000 ∉ (convert_svg_to_tgs true (some 70000) (some "a") 1).logs ∧
    (convert_svg_to_tgs true (some 70000) (some "a") 1).success = true :=
  ⟨(no_size_ceiling_warning true (some 70000) (some "a") 1 70000 70000).1,
   (no_size_ceiling_warning true (some 70000) (some "a") 1 70000 70000).2 rfl
     (by norm_num) rfl⟩

/- ===================== C8: single-file batch status ===================== -/

/-- Counterexample to C8 as stated.  A flushed single-file batch whose
only file fails moves its status message from the waiting announcement to
the done announcement and only then to the failure announcement, rather
than directly from waiting to the failure announcement. -/
theorem single_file_status_cex :
    batchStatusTimeline [⟨false, false⟩] =
      [StatusMsg.waiting, StatusMsg.done, StatusMsg.noneConverted] ∧
    batchStatusTimeline [⟨false, false⟩] ≠ [StatusMsg.waiting, StatusMsg.done] ∧
    batchStatusTimeline [⟨false, false⟩] ≠ [StatusMsg.waiting, StatusMsg.noneConverted] := by
  refine ⟨rfl, ?_, ?_⟩ <;> decide

/-- C8 as amended.  For every flushed batch holding exactly one document
f, no per-file progress update is ever emitted; the status goes from the
waiting announcement to the done announcement, and is followed by the
no-files-converted failure announcement exactly when f did not convert
successfully (so on failure the status reaches the failure announcement
via the done announcement, not directly). -/
theorem single_file_no_progress (f : FileOutcome) :
    (∀ current total, StatusMsg.fileProgress current total ∉ batchStatusTimeline [f]) ∧
    (batchStatusTimeline [f] = [StatusMsg.waiting, StatusMsg.done] ↔
      (f.valid && f.converted) = true) ∧
    (batchStatusTimeline [f] =
        [StatusMsg.waiting, StatusMsg.done, StatusMsg.noneConverted] ↔
      (f.valid && f.converted) = false) := by
  by_cases hf : (f.valid && f.converted) = true
  · refine ⟨?_, ?_, ?_⟩
    · intro current total
      simp [batchStatusTimeline, List.filter, hf]
    · simp [batchStatusTimeline, List.filter, hf]
    · simp [batchStatusTimeline, List.filter, hf]
  · simp only [Bool.not_eq_true] at hf
    refine ⟨?_, ?_, ?_⟩
    · intro current total
      simp [batchStatusTimeline, List.filter, hf]
    · simp [batchStatusTimeline, List.filter, hf]
    · simp [batchStatusTimeline, List.filter, hf]

/- ===================== Broadcast lemmas ===================== -/

theorem broadcast_loop_spec (sendOk : ℕ → Bool) :
    ∀ (user_ids : List ℕ) (a b : ℕ) (evs : List BEvent),
      user_ids.foldl (broadcastStep sendOk) (a, b, evs) =
        (a + (user_ids.filter (fun u => sendOk u)).length,
         b + (user_ids.filter (fun u => !sendOk u)).length,
         evs ++ user_ids.map (fun u => BEvent.sendAttempt u (sendOk u))) := by
  intro user_ids
  induction user_ids with
  | nil => intro a b evs; simp
  | cons u rest ih =>
    intro a b evs
    by_cases hok : sendOk u = true
    · simp only [List.foldl_cons, broadcastStep, hok, if_pos]
      rw [ih]
      simp [hok, List.filter_cons]
      omega
    · simp only [Bool.not_eq_true] at hok
      simp only [List.foldl_cons, broadcastStep, hok, Bool.false_eq_true, if_neg,
        not_false_eq_true]
      rw [ih]
      simp [hok, List.filter_cons]
      omega

theorem attempts_no_edit (sendOk : ℕ → Bool) (user_ids : List ℕ) :
    (user_ids.map (fun u => BEvent.sendAttempt u (sendOk u))).filter isStatusEdit = [] := by
  induction user_ids with
  | nil => rfl
  | cons u rest ih => simp [List.filter_cons, isStatusEdit, ih]

theorem attempts_uids (sendOk : ℕ → Bool) (user_ids : List ℕ) :
    (user_ids.map (fun u => BEvent.sendAttempt u (sendOk u))).filterMap attemptUid
      = user_ids := by
  induction user_ids with
  | nil => rfl
  | cons u rest ih => simp [List.filterMap_cons, attemptUid, ih]

/- ===================== C3: broadcast tally conservation ===================== -/

/-- C3.  For every broadcast over a recipient snapshot, every recipient
receives exactly one send attempt (the attempted recipients, in order,
are exactly the snapshot), the final counters satisfy
sent + failed = number of recipients, and exactly one status edit (the
final tally) is emitted — also when the snapshot is empty. -/
theorem broadcast_tally_conservation (user_ids : List ℕ) (sendOk : ℕ → Bool) :
    (broadcast_command user_ids sendOk).1 + (broadcast_command user_ids sendOk).2.1
      = user_ids.length ∧
    ((broadcast_command user_ids sendOk).2.2.filter isStatusEdit).length = 1 ∧
    (broadcast_command user_ids sendOk).2.2.filterMap attemptUid = user_ids := by
  simp only [broadcast_command, broadcast_loop_spec]
  refine ⟨?_, ?_, ?_⟩
  · have h := @List.length_eq_length_filter_add ℕ user_ids (fun u => sendOk u)
    simp only [Nat.zero_add]
    omega
  · simp [List.filter_append, attempts_no_edit, isStatusEdit]
  · rw [List.filterMap_append, List.filterMap_append, attempts_uids]
    simp [attemptUid]

/- ===================== C6: broadcast running progress ===================== -/

/-- Counterexample to C6 as stated.  A broadcast over 25 recipients of
which exactly two fail ends with the tally sent = 23, failed = 2, but
produces zero intermediate status edits before the final tally, not the
at least two the claim requires. -/
theorem broadcast_progress_cex :
    (broadcast_command (List.range 25) c6ok).1 = 23 ∧
    (broadcast_command (List.range 25) c6ok).2.1 = 2 ∧
    progressEdits (broadcast_command (List.range 25) c6ok).2.2 = 0 := by
  refine ⟨?_, ?_, ?_⟩ <;> rfl

/-- C6 as amended.  broadcast_command emits no running status updates at
all during dispatch: for every recipient snapshot the only status
messages are the initial announcement and the single final tally, so the
number of intermediate status edits is zero. -/
theorem broadcast_no_progress (user_ids : List ℕ) (sendOk : ℕ → Bool) :
    progressEdits (broadcast_command user_ids sendOk).2.2 = 0 ∧
    ((broadcast_command user_ids sendOk).2.2.filter isStatusEdit).length = 1 := by
  constructor
  · simp only [broadcast_command, broadcast_loop_spec, progressEdits]
    rw [List.dropLast_concat]
    simp [List.filter_cons, List.filter_append, attempts_no_edit, isStatusEdit]
  · simp only [broadcast_command, broadcast_loop_spec]
    simp [List.filter_append, attempts_no_edit, isStatusEdit]

/- ===================== Accumulator step inversion lemmas ===================== -/

theorem accStep_arrive_inv {s s' : Sys} {u d : ℕ}
    (h : accStep s (.arrive u d) = some s') :
    (alookup u s.batches = none ∧
      s' = { s with batches := ainsert u ⟨[d], s.nextGen, s.now + debounceDelay⟩ s.batches,
                    nextGen := s.nextGen + 1 }) ∨
    (∃ b, alookup u s.batches = some b ∧
      s' = { s with
               batches := ainsert u ⟨b.files ++ [d], s.nextGen, s.now + debounceDelay⟩ s.batches,
               nextGen := s.nextGen + 1 }) := by
  replace h : stepArrive s u d = some s' := h
  cases hb : alookup u s.batches with
  | none =>
    simp only [stepArrive, hb, Option.some.injEq] at h
    exact Or.inl ⟨rfl, h.symm⟩
  | some b =>
    simp only [stepArrive, hb, Option.some.injEq] at h
    exact Or.inr ⟨b, rfl, h.symm⟩

theorem accStep_fire_inv {s s' : Sys} {u g : ℕ}
    (h : accStep s (.fire u g) = some s') :
    ∃ b, alookup u s.batches = some b ∧ b.timerGen = g ∧ b.deadline ≤ s.now ∧
      s' = { s with batches := aerase u s.batches,
                    flushes := ⟨u, b.files, false⟩ :: s.flushes } := by
  replace h : stepFire s u g = some s' := h
  cases hb : alookup u s.batches with
  | none =>
    simp only [stepFire, hb] at h
    exact Option.noConfusion h
  | some b =>
    simp only [stepFire, hb] at h
    split at h
    · rename_i hc
      simp only [Option.some.injEq] at h
      exact ⟨b, rfl, hc.1, hc.2, h.symm⟩
    · exact absurd h (by simp)

theorem accStep_complete_inv {s s' : Sys} {i : ℕ}
    (h : accStep s (.complete i) = some s') :
    i < s.flushes.length ∧ s' = { s with flushes := markAt i s.flushes } := by
  replace h : stepComplete s i = some s' := h
  unfold stepComplete at h
  split at h
  · simp only [Option.some.injEq] at h
    exact ⟨by assumption, h.symm⟩
  · exact absurd h (by simp)

theorem accStep_tick_inv {s s' : Sys} {d : ℚ}
    (h : accStep s (.tick d) = some s') :
    0 < d ∧ (∀ p ∈ s.batches, s.now + d ≤ p.2.deadline) ∧
      s' = { s with now := s.now + d } := by
  replace h : stepTick s d = some s' := h
  unfold stepTick at h
  split at h
  · rename_i hc
    simp only [Option.some.injEq] at h
    exact ⟨hc.1, hc.2, h.symm⟩
  · exact absurd h (by simp)

theorem accStep_now_le {s s' : Sys} {a : Act} (h : accStep s a = some s') :
    s.now ≤ s'.now := by
  cases a with
  | arrive u d =>
    rcases accStep_arrive_inv h with ⟨_, rfl⟩ | ⟨b, _, rfl⟩ <;> exact le_refl _
  | fire u g =>
    obtain ⟨b, _, _, _, rfl⟩ := accStep_fire_inv h
    exact le_refl _
  | complete i =>
    obtain ⟨_, rfl⟩ := accStep_complete_inv h
    exact le_refl _
  | tick d =>
    obtain ⟨hd, _, rfl⟩ := accStep_tick_inv h
    simp only []
    linarith

theorem accRun_now_le :
    ∀ {acts : List Act} {s s_f : Sys}, accRun acts s = some s_f → s.now ≤ s_f.now := by
  intro acts
  induction acts with
  | nil =>
    intro s s_f h
    simp only [accRun, Option.some.injEq] at h
    rw [h]
  | cons a acts ih =>
    intro s s_f h
    unfold accRun at h
    cases hs : accStep s a <;> rw [hs] at h
    · exact absurd h (by simp)
    · exact le_trans (accStep_now_le hs) (ih h)

theorem uArr_time_lb (u : ℕ) :
    ∀ (acts : List Act) (s : Sys) (x : ℚ × ℕ), x ∈ uArr u acts s → s.now ≤ x.1 := by
  intro acts
  induction acts with
  | nil =>
    intro s x hx
    simp [uArr] at hx
  | cons a acts ih =>
    intro s x hx
    cases hs : accStep s a with
    | none => simp [uArr, hs] at hx
    | some s' =>
      simp only [uArr, hs] at hx
      rcases List.mem_append.mp hx with h1 | h2
      · cases a with
        | arrive v d =>
          by_cases hv : v = u
          · simp only [arrHead, hv, if_pos, List.mem_singleton] at h1
            simp [h1]
          · simp [arrHead, hv] at h1
        | fire v g => simp [arrHead] at h1
        | complete i => simp [arrHead] at h1
        | tick dd => simp [arrHead] at h1
      · exact le_trans (accStep_now_le hs) (ih s' x h2)

theorem markAt_map_flushData (i : ℕ) (l : List Flush) :
    (markAt i l).map flushData = l.map flushData := by
  induction l generalizing i with
  | nil => cases i <;> rfl
  | cons f fs ih =>
    cases i with
    | zero => simp [markAt, flushData]
    | succ n => simp [markAt, ih]

/- ===================== C1: remove-before-process isolation ===================== -/

/-- Counterexample to C1 as stated.  In an execution where the flush of
the first batch of user 7 has begun (its entry removed, its processing
not yet completed), a second document arrives, starts a fresh batch, and
that batch's timer fires 2 time units later: at the end two flushes of
user 7 have begun and neither has completed, so two flushes for the same
user are concurrently in progress. -/
theorem two_concurrent_flushes_cex :
    accRun c1trace initSys = some c1final ∧ activeFlushes 7 c1final = 2 := by
  constructor
  · norm_num [c1trace, c1final, initSys, accRun, accStep, stepArrive, stepFire,
      stepTick, alookup, aerase, ainsert, debounceDelay]
  · decide

/-- C1 as amended.  In every atomic step of the accumulator: (a) the
identifying data (user, captured files) of every flush already begun is
preserved, so an arrival can never be appended to an in-flight flush;
(b) a flush begin (a timer firing) removes the batch entry of its user
from the live map and captures its files in the same atomic step, before
any suspension-point work of the flush; (c) a document arriving when no
entry exists for its user (in particular, after a flush has begun)
creates a brand-new single-document batch with a fresh debounce deadline.
Unlike the claim, two flushes of the same user can be concurrently in
progress (two_concurrent_flushes_cex): only their begins are sequential,
flush N+1 beginning after flush N removed its entry. -/
theorem batch_remove_before_flush (s s' : Sys) (a : Act) (h : accStep s a = some s') :
    (s.flushes.map flushData).IsSuffix (s'.flushes.map flushData) ∧
    (∀ u g, a = .fire u g →
      alookup u s'.batches = none ∧
      ∃ b, alookup u s.batches = some b ∧
        s'.flushes = ⟨u, b.files, false⟩ :: s.flushes) ∧
    (∀ u d, a = .arrive u d →
      s'.flushes = s.flushes ∧
      (alookup u s.batches = none →
        alookup u s'.batches = some ⟨[d], s.nextGen, s.now + debounceDelay⟩)) := by
  refine ⟨?_, ?_, ?_⟩
  · cases a with
    | arrive u d =>
      rcases accStep_arrive_inv h with ⟨_, rfl⟩ | ⟨b, _, rfl⟩ <;> exact List.suffix_refl _
    | fire u g =>
      obtain ⟨b, _, _, _, rfl⟩ := accStep_fire_inv h
      simp only [List.map_cons]
      exact List.suffix_cons _ _
    | complete i =>
      obtain ⟨hi, rfl⟩ := accStep_complete_inv h
      simp only [markAt_map_flushData]
      exact List.suffix_refl _
    | tick d =>
      obtain ⟨_, _, rfl⟩ := accStep_tick_inv h
      exact List.suffix_refl _
  · intro u g ha
    subst ha
    obtain ⟨b, hb, hg, hd, rfl⟩ := accStep_fire_inv h
    exact ⟨alookup_aerase_self u s.batches, b, hb, rfl⟩
  · intro u d ha
    subst ha
    rcases accStep_arrive_inv h with ⟨hn, rfl⟩ | ⟨b, hb, rfl⟩
    · exact ⟨rfl, fun _ => alookup_ainsert_self _ _ _⟩
    · refine ⟨rfl, fun hn => ?_⟩
      rw [hb] at hn
      cases hn

/-- Witness for batch_remove_before_flush at a concrete firing step: the
entry of user 7 is removed from the live map by the very step that begins
the flush. -/
theorem batch_remove_before_flush_witness :
    alookup 7 c1wNext.batches = none ∧ accStep c1wState (.fire 7 0) = some c1wNext := by
  have hstep : accStep c1wState (.fire 7 0) = some c1wNext := by
    norm_num [c1wState, c1wNext, accStep, stepFire, alookup, aerase]
  exact ⟨((batch_remove_before_flush c1wState c1wNext (.fire 7 0) hstep).2.1 7 0 rfl).1,
    hstep⟩

/- ===================== Debounce run lemmas ===================== -/

theorem accRun_cons_some {s s' : Sys} {a : Act} {acts : List Act}
    (hs : accStep s a = some s') :
    accRun (a :: acts) s = accRun acts s' := by
  simp [accRun, hs]

theorem uArr_cons_some (u : ℕ) {s s' : Sys} {a : Act} (acts : List Act)
    (hs : accStep s a = some s') :
    uArr u (a :: acts) s = arrHead u s a ++ uArr u acts s' := by
  simp [uArr, hs]

theorem uFires_cons_some (u : ℕ) {s s' : Sys} {a : Act} (acts : List Act)
    (hs : accStep s a = some s') :
    uFires u (a :: acts) s = fireHead u s a ++ uFires u acts s' := by
  simp [uFires, hs]

theorem debounceDelay_pos : (0 : ℚ) < debounceDelay := by
  norm_num [debounceDelay]

theorem acc_none_aux (u : ℕ) :
    ∀ (acts : List Act) (s s_f : Sys),
      accRun acts s = some s_f → alookup u s.batches = none → uArr u acts s = [] →
      uFires u acts s = [] ∧ alookup u s_f.batches = none := by
  intro acts
  induction acts with
  | nil =>
    intro s s_f hrun hn _
    simp only [accRun, Option.some.injEq] at hrun
    subst hrun
    exact ⟨rfl, hn⟩
  | cons a acts ih =>
    intro s s_f hrun hn harr
    cases hs : accStep s a with
    | none =>
      rw [accRun, hs] at hrun
      exact Option.noConfusion hrun
    | some s' =>
      rw [accRun_cons_some hs] at hrun
      rw [uArr_cons_some u acts hs] at harr
      rw [uFires_cons_some u acts hs]
      cases a with
      | arrive v d =>
        by_cases hv : v = u
        · subst hv
          simp [arrHead] at harr
        · have huv : u ≠ v := fun hh => hv hh.symm
          simp only [arrHead, if_neg hv, List.nil_append] at harr
          have hn' : alookup u s'.batches = none := by
            rcases accStep_arrive_inv hs with ⟨_, rfl⟩ | ⟨b, _, rfl⟩ <;>
              simpa [alookup_ainsert_ne huv] using hn
          have hres := ih s' s_f hrun hn' harr
          refine ⟨?_, hres.2⟩
          simp [arrHead, if_neg hv, fireHead, hres.1]
      | fire v g =>
        obtain ⟨b, hbv, _, _, rfl⟩ := accStep_fire_inv hs
        by_cases hv : v = u
        · subst hv
          rw [hn] at hbv
          exact Option.noConfusion hbv
        · have huv : u ≠ v := fun hh => hv hh.symm
          simp only [arrHead, List.nil_append] at harr
          have hn' : alookup u (aerase v s.batches) = none := by
            rw [alookup_aerase_ne huv]
            exact hn
          have hres := ih _ s_f hrun hn' harr
          refine ⟨?_, hres.2⟩
          simp [fireHead, if_neg hv, hres.1]
      | complete i =>
        obtain ⟨_, rfl⟩ := accStep_complete_inv hs
        simp only [arrHead, List.nil_append] at harr
        have hres := ih _ s_f hrun hn harr
        refine ⟨?_, hres.2⟩
        simp [fireHead, hres.1]
      | tick dd =>
        obtain ⟨_, _, rfl⟩ := accStep_tick_inv hs
        simp only [arrHead, List.nil_append] at harr
        have hres := ih _ s_f hrun hn harr
        refine ⟨?_, hres.2⟩
        simp [fireHead, hres.1]

theorem arrHead_arrive_self (u d : ℕ) (s : Sys) :
    arrHead u s (.arrive u d) = [(s.now, d)] := by
  simp [arrHead]

theorem arrHead_arrive_ne {v u : ℕ} (hv : v ≠ u) (d : ℕ) (s : Sys) :
    arrHead u s (.arrive v d) = [] := by
  simp [arrHead, hv]

theorem arrHead_fire (u v g : ℕ) (s : Sys) : arrHead u s (.fire v g) = [] := rfl

theorem arrHead_complete (u i : ℕ) (s : Sys) : arrHead u s (.complete i) = [] := rfl

theorem arrHead_tick (u : ℕ) (d : ℚ) (s : Sys) : arrHead u s (.tick d) = [] := rfl

theorem fireHead_arrive (u v d : ℕ) (s : Sys) : fireHead u s (.arrive v d) = [] := rfl

theorem fireHead_fire_self (u g : ℕ) (s : Sys) :
    fireHead u s (.fire u g) = capturedFiles u s := by
  simp [fireHead]

theorem fireHead_fire_ne {v u : ℕ} (hv : v ≠ u) (g : ℕ) (s : Sys) :
    fireHead u s (.fire v g) = [] := by
  simp [fireHead, hv]

theorem fireHead_complete (u i : ℕ) (s : Sys) : fireHead u s (.complete i) = [] := rfl

theorem fireHead_tick (u : ℕ) (d : ℚ) (s : Sys) : fireHead u s (.tick d) = [] := rfl

theorem acc_some_aux (u : ℕ) :
    ∀ (acts : List Act) (s s_f : Sys) (fs : List ℕ) (g0 : ℕ) (dl : ℚ),
      accRun acts s = some s_f →
      alookup u s.batches = some ⟨fs, g0, dl⟩ →
      s.now ≤ dl →
      gapsOk (dl - debounceDelay) ((uArr u acts s).map Prod.fst) = true →
      (uFires u acts s = [] ∧
        (∃ g1, alookup u s_f.batches =
          some ⟨fs ++ (uArr u acts s).map Prod.snd, g1,
            ((uArr u acts s).map Prod.fst).getLastD (dl - debounceDelay) + debounceDelay⟩) ∧
        s_f.now ≤ ((uArr u acts s).map Prod.fst).getLastD (dl - debounceDelay) + debounceDelay) ∨
      (uFires u acts s = [fs ++ (uArr u acts s).map Prod.snd] ∧
        alookup u s_f.batches = none) := by
  intro acts
  induction acts with
  | nil =>
    intro s s_f fs g0 dl hrun hb hnow _
    simp only [accRun, Option.some.injEq] at hrun
    subst hrun
    left
    simp only [uArr, uFires, List.map_nil, List.getLastD, List.append_nil]
    rw [sub_add_cancel]
    exact ⟨trivial, ⟨g0, hb⟩, hnow⟩
  | cons a acts ih =>
    intro s s_f fs g0 dl hrun hb hnow hgaps
    cases hs : accStep s a with
    | none =>
      rw [accRun, hs] at hrun
      exact Option.noConfusion hrun
    | some s' =>
      rw [accRun_cons_some hs] at hrun
      rw [uArr_cons_some u acts hs] at hgaps ⊢
      rw [uFires_cons_some u acts hs]
      cases a with
      | arrive v d =>
        by_cases hv : v = u
        · rw [hv] at hgaps hs ⊢
          rcases accStep_arrive_inv hs with ⟨hnone, _⟩ | ⟨b, hb', hseq⟩
          · rw [hb] at hnone
            exact Option.noConfusion hnone
          · rw [hb] at hb'
            injection hb' with hb2
            subst hb2
            rw [arrHead_arrive_self] at hgaps ⊢
            rw [fireHead_arrive]
            simp only [List.singleton_append, List.map_cons, List.nil_append] at hgaps ⊢
            simp only [gapsOk, Bool.and_eq_true] at hgaps
            have hgaps2 := hgaps.2
            have hb'' : alookup u s'.batches
                = some ⟨fs ++ [d], s.nextGen, s.now + debounceDelay⟩ := by
              rw [hseq]
              exact alookup_ainsert_self u _ s.batches
            have hnow' : s'.now ≤ s.now + debounceDelay := by
              rw [hseq]
              have := debounceDelay_pos
              show s.now ≤ s.now + debounceDelay
              linarith
            have hgaps' : gapsOk (s.now + debounceDelay - debounceDelay)
                ((uArr u acts s').map Prod.fst) = true := by
              rw [add_sub_cancel_right]
              exact hgaps2
            have hres := ih s' s_f (fs ++ [d]) s.nextGen (s.now + debounceDelay)
              hrun hb'' hnow' hgaps'
            rw [add_sub_cancel_right] at hres
            rcases hres with ⟨hF, ⟨g1, hlook⟩, hfnow⟩ | ⟨hF, hlook⟩
            · left
              refine ⟨hF, ⟨g1, ?_⟩, ?_⟩
              · rw [List.getLastD_cons]
                simpa [List.append_assoc] using hlook
              · rw [List.getLastD_cons]
                exact hfnow
            · right
              refine ⟨?_, hlook⟩
              rw [hF]
              simp [List.append_assoc]
        · rw [arrHead_arrive_ne hv] at hgaps ⊢
          rw [fireHead_arrive]
          simp only [List.nil_append] at hgaps ⊢
          have huv : u ≠ v := fun hh => hv hh.symm
          have hb' : alookup u s'.batches = some ⟨fs, g0, dl⟩ := by
            rcases accStep_arrive_inv hs with ⟨_, hseq⟩ | ⟨b, _, hseq⟩ <;>
              rw [hseq] <;> simpa [alookup_ainsert_ne huv] using hb
          have hnow' : s'.now ≤ dl := by
            rcases accStep_arrive_inv hs with ⟨_, hseq⟩ | ⟨b, _, hseq⟩ <;>
              rw [hseq] <;> simpa using hnow
          exact ih s' s_f fs g0 dl hrun hb' hnow' hgaps
      | fire v g =>
        obtain ⟨b, hbv, hgen, hdl, hseq⟩ := accStep_fire_inv hs
        by_cases hv : v = u
        · rw [hv] at hgaps hbv hseq ⊢
          rw [hb] at hbv
          injection hbv with hbv2
          subst hbv2
          have hdl' : dl ≤ s.now := hdl
          rw [arrHead_fire] at hgaps ⊢
          rw [fireHead_fire_self]
          simp only [List.nil_append] at hgaps ⊢
          have hA : uArr u acts s' = [] := by
            cases hA2 : uArr u acts s' with
            | nil => rfl
            | cons x rest =>
              exfalso
              have hx : x ∈ uArr u acts s' := by
                rw [hA2]
                exact List.mem_cons_self _ _
              have h1 := uArr_time_lb u acts s' x hx
              have h2 : s.now ≤ x.1 := by
                rw [hseq] at h1
                simpa using h1
              rw [hA2] at hgaps
              simp only [List.map_cons, gapsOk, Bool.and_eq_true] at hgaps
              have h3 : x.1 < dl - debounceDelay + debounceDelay :=
                of_decide_eq_true hgaps.1
              rw [sub_add_cancel] at h3
              linarith
          have hnone' : alookup u s'.batches = none := by
            rw [hseq]
            simpa using alookup_aerase_self u s.batches
          have hres := acc_none_aux u acts s' s_f hrun hnone' hA
          right
          refine ⟨?_, hres.2⟩
          rw [hA, hres.1]
          simp [capturedFiles, hb]
        · rw [arrHead_fire] at hgaps ⊢
          rw [fireHead_fire_ne hv]
          simp only [List.nil_append] at hgaps ⊢
          have huv : u ≠ v := fun hh => hv hh.symm
          have hb' : alookup u s'.batches = some ⟨fs, g0, dl⟩ := by
            rw [hseq]
            simpa [alookup_aerase_ne huv] using hb
          have hnow' : s'.now ≤ dl := by
            rw [hseq]
            simpa using hnow
          exact ih s' s_f fs g0 dl hrun hb' hnow' hgaps
      | complete i =>
        obtain ⟨hi, hseq⟩ := accStep_complete_inv hs
        rw [arrHead_complete] at hgaps ⊢
        rw [fireHead_complete]
        simp only [List.nil_append] at hgaps ⊢
        have hb' : alookup u s'.batches = some ⟨fs, g0, dl⟩ := by
          rw [hseq]
          simpa using hb
        have hnow' : s'.now ≤ dl := by
          rw [hseq]
          simpa using hnow
        exact ih s' s_f fs g0 dl hrun hb' hnow' hgaps
      | tick dd =>
        obtain ⟨hdpos, hall, hseq⟩ := accStep_tick_inv hs
        rw [arrHead_tick] at hgaps ⊢
        rw [fireHead_tick]
        simp only [List.nil_append] at hgaps ⊢
        have hb' : alookup u s'.batches = some ⟨fs, g0, dl⟩ := by
          rw [hseq]
          simpa using hb
        have hnow' : s'.now ≤ dl := by
          rw [hseq]
          have hmem := alookup_mem hb
          simpa using hall _ hmem
        exact ih s' s_f fs g0 dl hrun hb' hnow' hgaps

theorem acc_start_aux (u : ℕ) :
    ∀ (acts : List Act) (s s_f : Sys),
      accRun acts s = some s_f →
      alookup u s.batches = none →
      uArr u acts s ≠ [] →
      arrivalGapsOk (uArr u acts s) = true →
      ((uArr u acts s).map Prod.fst).getLastD 0 + debounceDelay < s_f.now →
      uFires u acts s = [(uArr u acts s).map Prod.snd] := by
  intro acts
  induction acts with
  | nil =>
    intro s s_f _ _ hne _ _
    exact absurd rfl hne
  | cons a acts ih =>
    intro s s_f hrun hn hne hgaps hlate
    cases hs : accStep s a with
    | none =>
      rw [accRun, hs] at hrun
      exact Option.noConfusion hrun
    | some s' =>
      rw [accRun_cons_some hs] at hrun
      rw [uArr_cons_some u acts hs] at hne hgaps hlate ⊢
      rw [uFires_cons_some u acts hs]
      cases a with
      | arrive v d =>
        by_cases hv : v = u
        · rw [hv] at hs hne hgaps hlate ⊢
          rw [arrHead_arrive_self] at hne hgaps hlate ⊢
          rw [fireHead_arrive]
          simp only [List.singleton_append, List.map_cons, List.nil_append] at hgaps hlate ⊢
          simp only [arrivalGapsOk] at hgaps
          rw [List.getLastD_cons] at hlate
          rcases accStep_arrive_inv hs with ⟨_, hseq⟩ | ⟨b, hb', _⟩
          · have hb'' : alookup u s'.batches
                = some ⟨[d], s.nextGen, s.now + debounceDelay⟩ := by
              rw [hseq]
              exact alookup_ainsert_self u _ s.batches
            have hnow' : s'.now ≤ s.now + debounceDelay := by
              rw [hseq]
              show s.now ≤ s.now + debounceDelay
              linarith [debounceDelay_pos]
            have hgaps' : gapsOk (s.now + debounceDelay - debounceDelay)
                ((uArr u acts s').map Prod.fst) = true := by
              rw [add_sub_cancel_right]
              exact hgaps
            have hres := acc_some_aux u acts s' s_f [d] s.nextGen
              (s.now + debounceDelay) hrun hb'' hnow' hgaps'
            rw [add_sub_cancel_right] at hres
            rcases hres with ⟨_, _, hfnow⟩ | ⟨hF, _⟩
            · exfalso
              linarith
            · rw [hF]
              simp
          · rw [hn] at hb'
            exact Option.noConfusion hb'
        · rw [arrHead_arrive_ne hv] at hne hgaps hlate ⊢
          rw [fireHead_arrive]
          simp only [List.nil_append] at hne hgaps hlate ⊢
          have huv : u ≠ v := fun hh => hv hh.symm
          have hn' : alookup u s'.batches = none := by
            rcases accStep_arrive_inv hs with ⟨_, hseq⟩ | ⟨b, _, hseq⟩ <;>
              rw [hseq] <;> simpa [alookup_ainsert_ne huv] using hn
          exact ih s' s_f hrun hn' hne hgaps hlate
      | fire v g =>
        obtain ⟨b, hbv, _, _, hseq⟩ := accStep_fire_inv hs
        by_cases hv : v = u
        · rw [hv] at hbv
          rw [hn] at hbv
          exact Option.noConfusion hbv
        · rw [arrHead_fire] at hne hgaps hlate ⊢
          rw [fireHead_fire_ne hv]
          simp only [List.nil_append] at hne hgaps hlate ⊢
          have huv : u ≠ v := fun hh => hv hh.symm
          have hn' : alookup u s'.batches = none := by
            rw [hseq]
            simpa [alookup_aerase_ne huv] using hn
          exact ih s' s_f hrun hn' hne hgaps hlate
      | complete i =>
        obtain ⟨_, hseq⟩ := accStep_complete_inv hs
        rw [arrHead_complete] at hne hgaps hlate ⊢
        rw [fireHead_complete]
        simp only [List.nil_append] at hne hgaps hlate ⊢
        have hn' : alookup u s'.batches = none := by
          rw [hseq]
          simpa using hn
        exact ih s' s_f hrun hn' hne hgaps hlate
      | tick dd =>
        obtain ⟨_, _, hseq⟩ := accStep_tick_inv hs
        rw [arrHead_tick] at hne hgaps hlate ⊢
        rw [fireHead_tick]
        simp only [List.nil_append] at hne hgaps hlate ⊢
        have hn' : alookup u s'.batches = none := by
          rw [hseq]
          simpa using hn
        exact ih s' s_f hrun hn' hne hgaps hlate

/- ===================== C2: debounce correctness ===================== -/

/-- C2.  For every run from the initial state and every user u: if the
arrivals of u are nonempty and consecutive ones are spaced less than the
debounce delay apart (each arrival cancelling the previously scheduled
timer and scheduling a new one), and the run lasts beyond the debounce
window of the last arrival, then exactly one flush of that user occurs,
and its captured batch contains exactly the N submitted documents in
arrival order. -/
theorem debounce_single_flush (u : ℕ) (acts : List Act) (s_f : Sys)
    (hrun : accRun acts initSys = some s_f)
    (hne : uArr u acts initSys ≠ [])
    (hgaps : arrivalGapsOk (uArr u acts initSys) = true)
    (hlate : ((uArr u acts initSys).map Prod.fst).getLastD 0 + debounceDelay < s_f.now) :
    uFires u acts initSys = [(uArr u acts initSys).map Prod.snd] :=
  acc_start_aux u acts initSys s_f hrun rfl hne hgaps hlate

/-- Witness for debounce_single_flush: user 5 submits documents 10 and 11
one time unit apart, the timer fires two units after the second, and the
single flush carries both documents in order. -/
theorem debounce_single_flush_witness :
    uFires 5 c2trace initSys = [[10, 11]] := by
  have harr : uArr 5 c2trace initSys = [(0, 10), (1, 11)] := by
    norm_num [c2trace, initSys, uArr, accStep, stepArrive, stepFire, stepTick,
      arrHead, alookup, aerase, ainsert, debounceDelay]
  have hrun : accRun c2trace initSys = some c2final := by
    norm_num [c2trace, c2final, initSys, accRun, accStep, stepArrive, stepFire,
      stepTick, alookup, aerase, ainsert, debounceDelay]
  have h := debounce_single_flush 5 c2trace c2final hrun
    (by rw [harr]; simp)
    (by rw [harr]; norm_num [arrivalGapsOk, gapsOk, debounceDelay])
    (by rw [harr]; norm_num [c2final, List.getLastD, debounceDelay])
  rw [harr] at h
  simpa using h
